import Mathlib

/-!
Verification of the version-resolution core (tree versions, tree cache, and
version composition) of the garden repository. The repository sources under
review contain the test suites and callers of the vcs module; the vcs module
itself (getTreeVersion, getModuleVersionString, hashModuleVersion, isSubPath,
the tree cache) is not among the given sources, so those operations are
modelled from the specification, constrained by the behaviour the test
suites pin down. All definitions are executable and kernel-computable.
-/

set_option maxRecDepth 16384

namespace Garden

/-! ## String ordering

The source sorts file paths and dependency names with plain JS string
comparison (lodash sortBy). We model it as byte-wise lexicographic
comparison on the character lists, which is kernel-computable. -/

/-- Lexicographic less-or-equal on character lists, comparing code points. -/
def strLeChars : List Char → List Char → Bool
  | [], _ => true
  | _ :: _, [] => false
  | a :: as, b :: bs =>
    if a.toNat < b.toNat then true
    else if b.toNat < a.toNat then false
    else strLeChars as bs

/-- Lexicographic less-or-equal on strings. -/
def strLe (a b : String) : Bool := strLeChars a.data b.data

/-- Insert an element into a list that is sorted by the given string key. -/
def insertByKey {α : Type} (key : α → String) (a : α) : List α → List α
  | [] => [a]
  | b :: bs => if strLe (key a) (key b) then a :: b :: bs else b :: insertByKey key a bs

/-- Insertion sort by a string key. This models the stable sortBy used by the
source when sorting scanned files by path and dependency versions by name. -/
def sortByKey {α : Type} (key : α → String) : List α → List α
  | [] => []
  | a :: as => insertByKey key a (sortByKey key as)

/-! ## Hashing

Modelled from the spec: the missing vcs module combines strings by hashing
their joined concatenation and truncating the digest to a fixed-length hex
string (the spec asks for a fixed-length hex digest truncation and full
determinism, not for a particular digest algorithm). We use a deterministic
polynomial digest rendered as exactly ten hex characters. -/

/-- The sixteen hex digit characters. -/
def hexChars : List Char := "0123456789abcdef".data

/-- Hex digit character for a value, taken modulo 16. -/
def hexDigit (m : Nat) : Char :=
  hexChars.get ⟨m % 16, by
    have hlen : hexChars.length = 16 := rfl
    omega⟩

/-- Big-endian fixed-width hex rendering of a natural number. -/
def natToHexFixed : Nat → Nat → List Char
  | 0, _ => []
  | w + 1, n => natToHexFixed w (n / 16) ++ [hexDigit n]

/-- Number of hex characters kept in a version digest (the fixed truncation
length of the digest; the fixture version string v-55de0aac5c carries a
ten-character digest). -/
def digestLength : Nat := 10

/-- Modulus bounding the polynomial digest. -/
def hashModulus : Nat := 16 ^ digestLength

/-- Deterministic polynomial digest of a string. -/
def polyHash (s : String) : Nat :=
  s.data.foldl (fun a c => (a * 131 + c.toNat + 1) % hashModulus) 7

/-- Join a list of strings with a separator. -/
def joinWith (sep : String) : List String → String
  | [] => ""
  | [s] => s
  | s :: rest => s ++ sep ++ joinWith sep rest

/-- Modelled from the spec: hashStrings of the missing vcs module — hash the
joined input strings and keep a fixed-length hex truncation. -/
def hashStrings (ss : List String) : String :=
  String.mk (natToHexFixed digestLength (polyHash (joinWith "." ss)))

/-! ## Configuration values

Configuration payloads (spec, variables, buildConfig and so on) are free-form
JSON-like values. The spec requires hashing over a canonical serialization
that sorts object keys recursively, so key insertion order never matters.
A flat mutual inductive family keeps every operation structural and hence
kernel-computable. -/

mutual
/-- JSON-like configuration value. -/
inductive JVal : Type where
  | jnull : JVal
  | jbool : Bool → JVal
  | jstr : String → JVal
  | jarr : JArr → JVal
  | jobj : JFields → JVal
deriving DecidableEq

/-- List of JSON-like values (array payload). -/
inductive JArr : Type where
  | nil : JArr
  | cons : JVal → JArr → JArr
deriving DecidableEq

/-- Association list of object fields. -/
inductive JFields : Type where
  | nil : JFields
  | cons : String → JVal → JFields → JFields
deriving DecidableEq
end

/-- Build object fields from an ordinary association list. -/
def fieldsOfList : List (String × JVal) → JFields
  | [] => .nil
  | (k, v) :: rest => .cons k v (fieldsOfList rest)

/-- View object fields as an ordinary association list. -/
def fieldsToList : JFields → List (String × JVal)
  | .nil => []
  | .cons k v rest => (k, v) :: fieldsToList rest

/-- Sort object fields by key. -/
def sortFields (fs : JFields) : JFields :=
  fieldsOfList (sortByKey Prod.fst (fieldsToList fs))

mutual
/-- Canonical form of a value: object keys sorted recursively. Modelled from
the spec requirement to normalize object keys recursively before hashing. -/
def canon : JVal → JVal
  | .jnull => .jnull
  | .jbool b => .jbool b
  | .jstr s => .jstr s
  | .jarr items => .jarr (canonArr items)
  | .jobj fields => .jobj (sortFields (canonFields fields))

/-- Canonical form of an array payload. -/
def canonArr : JArr → JArr
  | .nil => .nil
  | .cons v rest => .cons (canon v) (canonArr rest)

/-- Canonical form of object fields (each value canonicalized, order kept). -/
def canonFields : JFields → JFields
  | .nil => .nil
  | .cons k v rest => .cons k (canon v) (canonFields rest)
end

mutual
/-- Plain structural serialization of a value (no reordering; canonicalize
first with canon). -/
def serializeJVal : JVal → String
  | .jnull => "null"
  | .jbool b => if b then "true" else "false"
  | .jstr s => "[" ++ s ++ "]"
  | .jarr items => "a(" ++ serializeArr items ++ ")"
  | .jobj fields => "o(" ++ serializeFields fields ++ ")"

/-- Serialization of an array payload. -/
def serializeArr : JArr → String
  | .nil => ""
  | .cons v rest => serializeJVal v ++ ";" ++ serializeArr rest

/-- Serialization of object fields. -/
def serializeFields : JFields → String
  | .nil => ""
  | .cons k v rest => "[" ++ k ++ "]=" ++ serializeJVal v ++ ";" ++ serializeFields rest
end

/-- Modelled from the spec: serializeConfig of the missing vcs module — a
canonical serialization (object keys sorted recursively) used for hashing. -/
def serializeConfig (v : JVal) : String := serializeJVal (canon v)

/-! ## Version composer -/

/-- Tree version tagged with the unit name. -/
structure NamedTreeVersion where
  name : String
  contentHash : String
  files : List String
deriving DecidableEq

/-- Resolved module version tagged with the unit name. -/
structure NamedModuleVersion where
  name : String
  contentHash : String
  versionString : String
  dependencyVersions : List (String × String)
  files : List String
deriving DecidableEq

/-- Module configuration projection relevant to versioning, as exercised by
the test suites: kind payload (spec), variables, optional explicit build
configuration, and the runtime declaration lists. -/
structure ModuleConfig where
  apiVersion : String
  name : String
  type : String
  path : String
  configPath : Option String
  spec : JVal
  moduleVariables : JVal
  varfile : Option String
  buildConfig : Option JVal
  serviceConfigs : JVal
  taskConfigs : JVal
  testConfigs : JVal

/-- Optional string as a configuration value. -/
def optStrToJVal : Option String → JVal
  | some s => .jstr s
  | none => .jnull

/-- Fixed human-recognizable tag prefixed to every composed version string. -/
def versionStringTag : String := "v-"

/-- Modelled from the spec: the configuration projection hashed by
hashModuleVersion. When an explicit buildConfig is declared it is used as is;
otherwise the projection keeps apiVersion, name, spec, type, variables and
varfile. The repository test suite pins down that the service, task and test
declaration lists are omitted from the projection in both cases (the test
titled: omits generally-considered runtime fields). -/
def moduleConfigToHash (c : ModuleConfig) : JVal :=
  match c.buildConfig with
  | some bc => bc
  | none =>
    .jobj (fieldsOfList
      [("apiVersion", .jstr c.apiVersion), ("name", .jstr c.name), ("spec", c.spec),
       ("type", .jstr c.type), ("variables", c.moduleVariables), ("varfile", optStrToJVal c.varfile)])

/-- Modelled from the spec: hashModuleVersion — fold the canonical
serialization of the configuration projection, the tree digest, and the
dependency versions sorted by dependency name, into one digest. -/
def hashModuleVersion (c : ModuleConfig) (tree : NamedTreeVersion)
    (deps : List NamedModuleVersion) : String :=
  hashStrings (serializeConfig (moduleConfigToHash c) :: tree.contentHash ::
    (sortByKey NamedModuleVersion.name deps).map (fun m => m.name ++ "_" ++ m.versionString))

/-- Modelled from the spec: getModuleVersionString — the fixed tag followed
by the composed digest. -/
def getModuleVersionString (c : ModuleConfig) (tree : NamedTreeVersion)
    (deps : List NamedModuleVersion) : String :=
  versionStringTag ++ hashModuleVersion c tree deps

/-! ## Tree versions, scanner interface and tree cache -/

/-- A scanned file: path plus backend content digest. -/
structure VcsFile where
  path : String
  hash : String
deriving DecidableEq

/-- Content-addressed digest of a unit source tree: combined hash plus the
sorted file list. -/
structure TreeVersion where
  contentHash : String
  files : List String
deriving DecidableEq

/-- Unit descriptor: the projection of a unit configuration needed for
versioning, as exposed by configuration loading (spec section 6). -/
structure VersionResolutionConfig where
  kind : String
  name : String
  basePath : String
  configFilePath : Option String
  includeRules : Option (List String)
  excludeRules : Option (List String)
  sourceOverridePath : Option String
deriving DecidableEq

/-- Join two path fragments with a separator. -/
def joinPath (a b : String) : String := a ++ "/" ++ b

/-- Modelled from the spec: effective scan root — the declared base path,
or the source override path joined against the base path when declared. -/
def getSourcePath (c : VersionResolutionConfig) : String :=
  match c.sourceOverridePath with
  | some p => joinPath c.basePath p
  | none => c.basePath

/-- Path of the file declaring the unit, when known. -/
def configFilePathOf (c : VersionResolutionConfig) : Option String := c.configFilePath

/-- Modelled from the spec: getResourceTreeCacheKey — the cache key is
derived deterministically from kind, name and effective root path of the
unit descriptor. -/
def getResourceTreeCacheKey (c : VersionResolutionConfig) : List String :=
  [c.kind, c.name, getSourcePath c]

/-- Arguments handed to the tree scanner backend. -/
structure ScanParams where
  scanRoot : String
  includeRules : Option (List String)
  excludeRules : Option (List String)
deriving DecidableEq

/-- Modelled from the spec: the fixed set of project-wide default excludes
(build artifacts and source-control metadata). -/
def fixedProjectExcludes : List String := [".garden/**/*", ".git/**/*", "dist/**/*"]

/-- Placeholder content hash of a tree version that was never scanned
(a unit declaring include nothing). -/
def newResourceHash : String := "0000000000"

/-- Token hashed per scanned file: the path:hash pair. -/
def fileToken (f : VcsFile) : String := f.path ++ ":" ++ f.hash

/-- Modelled from the spec: build a TreeVersion from a scan result — drop
the unit declaration file, sort ascending by path, hash the sorted
path:hash tokens. -/
def buildTreeVersion (configFilePath : Option String) (files : List VcsFile) : TreeVersion :=
  ⟨hashStrings ((sortByKey VcsFile.path
      (files.filter (fun f => decide (configFilePath ≠ some f.path)))).map fileToken),
   (sortByKey VcsFile.path
      (files.filter (fun f => decide (configFilePath ≠ some f.path)))).map VcsFile.path⟩

/-- One tree cache entry: key, value, and the dependent paths whose change
must invalidate the entry. -/
structure CacheEntry where
  key : List String
  value : TreeVersion
  dependentPaths : List String
deriving DecidableEq

/-- The tree cache: an in-memory keyed store. -/
abbrev TreeCache := List CacheEntry

/-- Look up a cache entry by key. -/
def cacheGet (cache : TreeCache) (key : List String) : Option TreeVersion :=
  (cache.find? (fun e => e.key == key)).map CacheEntry.value

/-- Store a value under a key (newest entry wins). -/
def cacheSet (cache : TreeCache) (key : List String) (value : TreeVersion)
    (dependentPaths : List String) : TreeCache :=
  ⟨key, value, dependentPaths⟩ :: cache

/-- Modelled from the spec: drop every entry whose dependent paths meet the
set of changed paths. -/
def cacheInvalidate (cache : TreeCache) (changedPaths : List String) : TreeCache :=
  cache.filter (fun e => e.dependentPaths.all (fun p => !(changedPaths.contains p)))

/-- Condition under which the project-wide default excludes apply: the
effective scan root equals the project root and no include rule is declared. -/
def usesProjectExcludes (projectRoot : String) (c : VersionResolutionConfig) : Bool :=
  getSourcePath c == projectRoot && c.includeRules == none

/-- The scan parameters the resolver hands to the scanner for a unit. -/
def scanParamsFor (projectRoot : String) (c : VersionResolutionConfig) : ScanParams :=
  ⟨getSourcePath c, c.includeRules,
   if usesProjectExcludes projectRoot c then some fixedProjectExcludes else c.excludeRules⟩

/-- Modelled from the spec: the scan-and-build step of getTreeVersion — an
explicitly empty include set short-circuits to an empty tree version without
invoking the scanner; otherwise the scanner runs once with the computed
parameters. Returns the tree version plus the scanner invocations made. -/
def resolveTreeVersion (scanner : ScanParams → List VcsFile) (projectRoot : String)
    (c : VersionResolutionConfig) : TreeVersion × List ScanParams :=
  if c.includeRules = some [] then (⟨newResourceHash, []⟩, [])
  else
    (buildTreeVersion c.configFilePath (scanner (scanParamsFor projectRoot c)),
     [scanParamsFor projectRoot c])

/-- Result of a getTreeVersion call: the tree version, the cache afterwards,
and the scanner invocations made during the call. -/
structure GetTreeVersionResult where
  version : TreeVersion
  cache : TreeCache
  scanCalls : List ScanParams
deriving DecidableEq

/-- Modelled from the spec: getTreeVersion — on a live cache entry (unless a
rescan is forced) return it unchanged without scanning; otherwise resolve,
store under the key together with the dependent path set, and return. -/
def getTreeVersion (scanner : ScanParams → List VcsFile) (projectRoot : String)
    (cache : TreeCache) (c : VersionResolutionConfig) (force : Bool) :
    GetTreeVersionResult :=
  match cond force none (cacheGet cache (getResourceTreeCacheKey c)) with
  | some cached => ⟨cached, cache, []⟩
  | none =>
    ⟨(resolveTreeVersion scanner projectRoot c).1,
     cacheSet cache (getResourceTreeCacheKey c) (resolveTreeVersion scanner projectRoot c).1
       [getSourcePath c],
     (resolveTreeVersion scanner projectRoot c).2⟩

/-! ## Path utilities -/

/-- Generic list-leading check: the first list is an initial run of the
second, element by element. -/
def listLeads {α : Type} [BEq α] : List α → List α → Bool
  | [], _ => true
  | _ :: _, [] => false
  | a :: as, b :: bs => a == b && listLeads as bs

/-- Split a character list at slashes (helper of splitSegs). -/
def splitSegsAux (cur : List Char) : List Char → List (List Char)
  | [] => [cur.reverse]
  | c :: rest => if c = '/' then cur.reverse :: splitSegsAux [] rest else splitSegsAux (c :: cur) rest

/-- Split a path into its nonempty segments. -/
def splitSegs (p : String) : List String :=
  ((splitSegsAux [] p.data).filter (fun l => !l.isEmpty)).map (fun l => String.mk l)

/-- Does the path start with a separator. -/
def isAbsolutePath (p : String) : Bool :=
  match p.data with
  | c :: _ => c == '/'
  | [] => false

/-- Whole-segment containment: every segment of the first path leads the
segments of the second. -/
def segsBelow (parent cand : List String) : Bool := listLeads parent cand

/-- Error message raised on non-absolute arguments. -/
def subPathErrorMsg : String := "isSubPath takes absolute paths"

/-- Modelled from the spec: isSubPath — errors unless both arguments are
absolute; otherwise true iff the candidate equals the first path or is
nested under it by whole path segments (never raw string comparison). -/
def isSubPath (path sub : String) : Except String Bool :=
  if isAbsolutePath path && isAbsolutePath sub then
    .ok (segsBelow (splitSegs path) (splitSegs sub))
  else .error subPathErrorMsg

/-- Reference scanner used for sibling-rename facts: list the files of a
filesystem snapshot lying under a root by whole path segments. -/
def listUnder (root : String) (fs : List VcsFile) : List VcsFile :=
  fs.filter (fun f => segsBelow (splitSegs root) (splitSegs f.path))

/-! ## Concrete fixtures used by witnesses and counterexamples -/

/-- Tree version fixture named foo (mirrors the hashModuleVersion tests). -/
def tvFoo : NamedTreeVersion := ⟨"foo", "abcdefabced", []⟩

/-- Tree version fixture named module-a (mirrors the composer tests). -/
def tvA : NamedTreeVersion := ⟨"module-a", "qwerty", []⟩

/-- Dependency version fixture module-b. -/
def depB : NamedModuleVersion := ⟨"module-b", "qwerty", "qwerty", [("module-a", "qwerty")], []⟩

/-- Dependency version fixture module-c. -/
def depC : NamedModuleVersion := ⟨"module-c", "qwerty", "qwerty", [("module-b", "qwerty")], []⟩

/-- Base module configuration fixture (mirrors the baseConfig of the
hashModuleVersion tests). -/
def baseModuleConfig : ModuleConfig :=
  { apiVersion := "garden.io/v0", name := "foo", type := "test", path := "/tmp",
    configPath := none, spec := .jobj .nil, moduleVariables := .jnull, varfile := none,
    buildConfig := none, serviceConfigs := .jarr .nil, taskConfigs := .jarr .nil,
    testConfigs := .jarr .nil }

/-- A nonempty service declaration list. -/
def serviceConfigsAlt : JVal := .jarr (.cons (.jobj (.cons "name" (.jstr "bla") .nil)) .nil)

/-- A nonempty task declaration list. -/
def taskConfigsAlt : JVal := .jarr (.cons (.jobj (.cons "name" (.jstr "task") .nil)) .nil)

/-- A nonempty test declaration list. -/
def testConfigsAlt : JVal := .jarr (.cons (.jobj (.cons "name" (.jstr "unit") .nil)) .nil)

/-- An alternative kind payload. -/
def specAlt : JVal := .jobj (.cons "foo" (.jstr "bar") .nil)

/-- An explicit build configuration payload. -/
def buildConfigX : JVal := .jobj (.cons "something" (.jstr "build specific") .nil)

/-- Fixture with an explicit build configuration. -/
def cfgWithBuildA : ModuleConfig := { baseModuleConfig with buildConfig := some buildConfigX }

/-- Fixture with the same build configuration but different runtime fields
and a different kind payload. -/
def cfgWithBuildB : ModuleConfig :=
  { baseModuleConfig with
      buildConfig := some buildConfigX
      spec := specAlt
      serviceConfigs := serviceConfigsAlt
      taskConfigs := taskConfigsAlt
      testConfigs := testConfigsAlt }

/-- Object payload fields in one insertion order. -/
def objFields1 : List (String × JVal) := [("a", .jstr "x"), ("b", .jnull)]

/-- The same object payload fields in the other insertion order. -/
def objFields2 : List (String × JVal) := [("b", .jnull), ("a", .jstr "x")]

/-- Unit descriptor fixture used by witnesses. -/
def cfgModA : VersionResolutionConfig :=
  { kind := "module", name := "module-a", basePath := "/p/module-a",
    configFilePath := some "/p/module-a/garden.yml", includeRules := none,
    excludeRules := none, sourceOverridePath := none }

/-- Scanner fixture returning three files out of order, one of them the unit
declaration file (mirrors the getTreeVersion sorting tests). -/
def scannerFixture : ScanParams → List VcsFile := fun _ =>
  [⟨"c", "c"⟩, ⟨"/p/module-a/garden.yml", "x"⟩, ⟨"b", "b"⟩, ⟨"d", "d"⟩]

/-- The same scan result in another order. -/
def scannerFixturePermuted : ScanParams → List VcsFile := fun _ =>
  [⟨"b", "b"⟩, ⟨"d", "d"⟩, ⟨"c", "c"⟩, ⟨"/p/module-a/garden.yml", "x"⟩]

/-- The fixture scan result with only the declaration-file hash changed. -/
def scannerFixtureCfgEdited : ScanParams → List VcsFile := fun _ =>
  [⟨"c", "c"⟩, ⟨"/p/module-a/garden.yml", "edited"⟩, ⟨"b", "b"⟩, ⟨"d", "d"⟩]

/-- A cached tree version fixture. -/
def tvCached : TreeVersion := ⟨"abcdef", ["foo"]⟩

/-- A cache holding the fixture entry for the module-a descriptor. -/
def cacheFixture : TreeCache :=
  cacheSet [] (getResourceTreeCacheKey cfgModA) tvCached ["foo", "bar"]

/-- A descriptor declaring include nothing. -/
def cfgEmptyInclude : VersionResolutionConfig :=
  { cfgModA with includeRules := some [] }

/-- The module-a descriptor viewed at a project whose root is the module
root itself (no include rule declared). -/
def cfgAtRoot : VersionResolutionConfig := cfgModA

/-- Scan result before an in-tree file rename. -/
def renameBefore : List VcsFile := [⟨"/p/build-a/somedir/foo", "abcd"⟩]

/-- Scan result after renaming that file (same content hash, new path). -/
def renameAfter : List VcsFile := [⟨"/p/build-a/somedir/bar", "abcd"⟩]

/-- Filesystem snapshot holding the unit tree and an unrelated sibling. -/
def siblingBefore : List VcsFile :=
  [⟨"/p/build-a/x.txt", "h1"⟩, ⟨"/p/sibling/y.txt", "h2"⟩]

/-- The same snapshot after renaming the enclosing directory of the sibling. -/
def siblingAfter : List VcsFile :=
  [⟨"/p/build-a/x.txt", "h1"⟩, ⟨"/p/sibling-renamed/y.txt", "h2"⟩]

/-! ## Properties of the string order -/

/-- Reflexivity of the lexicographic comparison. -/
theorem strLeChars_refl (l : List Char) : strLeChars l l = true := by
  induction l with
  | nil => rfl
  | cons c cs ih => simp [strLeChars, ih]

/-- Totality of the lexicographic comparison. -/
theorem strLeChars_total (a : List Char) : ∀ b, strLeChars a b = true ∨ strLeChars b a = true := by
  induction a with
  | nil => intro b; exact Or.inl rfl
  | cons x xs ih =>
    intro b
    cases b with
    | nil => exact Or.inr rfl
    | cons y ys =>
      simp only [strLeChars]
      rcases Nat.lt_trichotomy x.toNat y.toNat with h | h | h
      · left; simp [h]
      · rcases ih ys with h2 | h2
        · left; simp [h, h2]
        · right; simp [h, h2]
      · right; simp [h]

/-- Transitivity of the lexicographic comparison. -/
theorem strLeChars_trans {a : List Char} : ∀ {b c : List Char}, strLeChars a b = true →
    strLeChars b c = true → strLeChars a c = true := by
  induction a with
  | nil => intro b c h1 h2; rfl
  | cons x xs ih =>
    intro b c h1 h2
    cases b with
    | nil => simp [strLeChars] at h1
    | cons y ys =>
      cases c with
      | nil => simp [strLeChars] at h2
      | cons z zs =>
        simp only [strLeChars] at h1 h2 ⊢
        split_ifs at h1 h2 ⊢ <;> first
          | rfl
          | omega
          | exact ih h1 h2

/-- Antisymmetry of the lexicographic comparison. -/
theorem strLeChars_antisymm {a : List Char} : ∀ {b : List Char}, strLeChars a b = true →
    strLeChars b a = true → a = b := by
  induction a with
  | nil =>
    intro b h1 h2
    cases b with
    | nil => rfl
    | cons y ys => simp [strLeChars] at h2
  | cons x xs ih =>
    intro b h1 h2
    cases b with
    | nil => simp [strLeChars] at h1
    | cons y ys =>
      simp only [strLeChars] at h1 h2
      split_ifs at h1 h2 <;> first
        | omega
        | exact Bool.noConfusion h1
        | exact Bool.noConfusion h2
        | (have hxy : x = y := Char.eq_of_val_eq (UInt32.ext (show x.toNat = y.toNat by omega))
           subst hxy
           rw [ih h1 h2])

/-- Reflexivity of the string comparison. -/
theorem strLe_refl (s : String) : strLe s s = true := strLeChars_refl _

/-- Totality of the string comparison. -/
theorem strLe_total (a b : String) : strLe a b = true ∨ strLe b a = true :=
  strLeChars_total _ _

/-- Transitivity of the string comparison. -/
theorem strLe_trans {a b c : String} (h1 : strLe a b = true) (h2 : strLe b c = true) :
    strLe a c = true := strLeChars_trans h1 h2

/-- Antisymmetry of the string comparison. -/
theorem strLe_antisymm {a b : String} (h1 : strLe a b = true) (h2 : strLe b a = true) : a = b := by
  cases a
  cases b
  exact congrArg String.mk (strLeChars_antisymm h1 h2)

/-! ## Properties of sorting by key -/

/-- Inserting permutes to consing. -/
theorem insertByKey_perm {α : Type} (key : α → String) (a : α) (l : List α) :
    (insertByKey key a l).Perm (a :: l) := by
  induction l with
  | nil => exact List.Perm.refl _
  | cons b bs ih =>
    simp only [insertByKey]
    split
    · exact List.Perm.refl _
    · exact (ih.cons b).trans (List.Perm.swap a b bs)

/-- Sorting permutes the input. -/
theorem sortByKey_perm {α : Type} (key : α → String) (l : List α) :
    (sortByKey key l).Perm l := by
  induction l with
  | nil => exact List.Perm.refl _
  | cons a as ih => exact (insertByKey_perm key a (sortByKey key as)).trans (ih.cons a)

/-- Inserting into a list sorted by key keeps it sorted by key. -/
theorem insertByKey_pairwise {α : Type} (key : α → String) (a : α) {l : List α}
    (h : l.Pairwise (fun x y => strLe (key x) (key y) = true)) :
    (insertByKey key a l).Pairwise (fun x y => strLe (key x) (key y) = true) := by
  induction l with
  | nil => simp [insertByKey]
  | cons b bs ih =>
    rw [List.pairwise_cons] at h
    obtain ⟨hb, hbs⟩ := h
    simp only [insertByKey]
    split
    next hab =>
      rw [List.pairwise_cons]
      refine ⟨?_, ?_⟩
      · intro x hx
        rcases List.mem_cons.mp hx with rfl | hx
        · exact hab
        · exact strLe_trans hab (hb x hx)
      · rw [List.pairwise_cons]
        exact ⟨hb, hbs⟩
    next hab =>
      have hba : strLe (key b) (key a) = true := by
        rcases strLe_total (key a) (key b) with h | h
        · exact absurd h hab
        · exact h
      rw [List.pairwise_cons]
      refine ⟨?_, ih hbs⟩
      intro x hx
      rcases List.mem_cons.mp ((insertByKey_perm key a bs).mem_iff.mp hx) with rfl | hx
      · exact hba
      · exact hb x hx

/-- The sort output is sorted by key. -/
theorem sortByKey_pairwise {α : Type} (key : α → String) (l : List α) :
    (sortByKey key l).Pairwise (fun x y => strLe (key x) (key y) = true) := by
  induction l with
  | nil => simp [sortByKey]
  | cons a as ih => exact insertByKey_pairwise key a ih

/-- Two permutations of one list of elements with pairwise-distinct keys have
the same sort: the sorted order is unique, so sorting cancels any reordering. -/
theorem sortByKey_eq_of_perm {α : Type} (key : α → String) {l1 l2 : List α}
    (hp : l1.Perm l2) (hnd : (l1.map key).Nodup) :
    sortByKey key l1 = sortByKey key l2 := by
  have hperm : (sortByKey key l1).Perm (sortByKey key l2) :=
    (sortByKey_perm key l1).trans (hp.trans (sortByKey_perm key l2).symm)
  haveI : IsAntisymm α (fun x y => (strLe (key x) (key y) = true ∧ key x ≠ key y) ∨ x = y) := by
    constructor
    intro x y hxy hyx
    rcases hxy with ⟨hle1, hne1⟩ | rfl
    · rcases hyx with ⟨hle2, hne2⟩ | rfl
      · exact absurd (strLe_antisymm hle1 hle2) hne1
      · rfl
    · rfl
  have key_nodup1 : ((sortByKey key l1).map key).Nodup :=
    ((sortByKey_perm key l1).map key).nodup_iff.mpr hnd
  have key_nodup2 : ((sortByKey key l2).map key).Nodup :=
    ((sortByKey_perm key l2).map key).nodup_iff.mpr (((hp.map key).nodup_iff).mp hnd)
  have hs1 : (sortByKey key l1).Pairwise
      (fun x y => (strLe (key x) (key y) = true ∧ key x ≠ key y) ∨ x = y) := by
    have hne : (sortByKey key l1).Pairwise (fun x y => key x ≠ key y) :=
      List.pairwise_map.mp key_nodup1
    exact ((sortByKey_pairwise key l1).and hne).imp (fun h => Or.inl h)
  have hs2 : (sortByKey key l2).Pairwise
      (fun x y => (strLe (key x) (key y) = true ∧ key x ≠ key y) ∨ x = y) := by
    have hne : (sortByKey key l2).Pairwise (fun x y => key x ≠ key y) :=
      List.pairwise_map.mp key_nodup2
    exact ((sortByKey_pairwise key l2).and hne).imp (fun h => Or.inl h)
  exact List.eq_of_perm_of_sorted hperm hs1 hs2

/-! ## Properties of the digest rendering -/

/-- The hex rendering has exactly the requested width. -/
theorem natToHexFixed_length (w : Nat) : ∀ n, (natToHexFixed w n).length = w := by
  induction w with
  | zero => intro n; rfl
  | succ w ih => intro n; simp [natToHexFixed, ih]

/-- Every hex digit is a hex character. -/
theorem hexDigit_mem (m : Nat) : hexDigit m ∈ hexChars := by
  unfold hexDigit
  apply List.get_mem

/-- Every character of the hex rendering is a hex character. -/
theorem natToHexFixed_mem {w : Nat} : ∀ {n : Nat}, ∀ c ∈ natToHexFixed w n, c ∈ hexChars := by
  induction w with
  | zero => intro n c hc; simp [natToHexFixed] at hc
  | succ w ih =>
    intro n c hc
    simp only [natToHexFixed, List.mem_append, List.mem_singleton] at hc
    rcases hc with hc | rfl
    · exact ih c hc
    · exact hexDigit_mem n

/-- The combined digest always has the fixed truncation length. -/
theorem hashStrings_length (ss : List String) : (hashStrings ss).length = digestLength :=
  natToHexFixed_length digestLength (polyHash (joinWith "." ss))

/-- The combined digest consists of hex characters only. -/
theorem hashStrings_mem (ss : List String) : ∀ c ∈ (hashStrings ss).data, c ∈ hexChars :=
  fun c hc => natToHexFixed_mem c hc

/-! ## Properties of canonicalization -/

/-- Round trip between field lists and association lists. -/
theorem fieldsToList_fieldsOfList : ∀ l : List (String × JVal), fieldsToList (fieldsOfList l) = l := by
  intro l
  induction l with
  | nil => rfl
  | cons p rest ih =>
    cases p
    simp [fieldsOfList, fieldsToList, ih]

/-- Unfolding of canon on objects. -/
theorem canon_jobj (fs : JFields) : canon (.jobj fs) = .jobj (sortFields (canonFields fs)) := by
  simp [canon]

/-- Canonicalizing fields commutes with building them from a list. -/
theorem canonFields_fieldsOfList : ∀ l : List (String × JVal),
    canonFields (fieldsOfList l) = fieldsOfList (l.map (fun p => (p.1, canon p.2))) := by
  intro l
  induction l with
  | nil => simp [fieldsOfList, canonFields]
  | cons p rest ih =>
    cases p
    simp [fieldsOfList, canonFields, ih]

/-- Canonicalization of an object is invariant under any reordering of its
fields, provided the keys are pairwise distinct. -/
theorem canon_jobj_eq_of_perm {f1 f2 : List (String × JVal)} (hf : f1.Perm f2)
    (hk : (f1.map Prod.fst).Nodup) :
    canon (.jobj (fieldsOfList f1)) = canon (.jobj (fieldsOfList f2)) := by
  rw [canon_jobj, canon_jobj, canonFields_fieldsOfList, canonFields_fieldsOfList]
  unfold sortFields
  rw [fieldsToList_fieldsOfList, fieldsToList_fieldsOfList]
  have hmapperm : (f1.map (fun p => (p.1, canon p.2))).Perm
      (f2.map (fun p => (p.1, canon p.2))) := hf.map _
  have hkeys : ((f1.map (fun p => (p.1, canon p.2))).map Prod.fst).Nodup := by
    rw [List.map_map]
    exact hk
  rw [sortByKey_eq_of_perm Prod.fst hmapperm hkeys]

/-- The composed hash is invariant under reordering the dependency list when
dependency names are pairwise distinct. -/
theorem hashModuleVersion_deps_perm (c : ModuleConfig) (tv : NamedTreeVersion)
    {deps1 deps2 : List NamedModuleVersion} (hp : deps1.Perm deps2)
    (hnd : (deps1.map NamedModuleVersion.name).Nodup) :
    hashModuleVersion c tv deps1 = hashModuleVersion c tv deps2 := by
  unfold hashModuleVersion
  rw [sortByKey_eq_of_perm NamedModuleVersion.name hp hnd]

/-! ## Properties of tree version building, the resolver and the cache -/

/-- Building a tree version is invariant under permuting the scan result when
the scanned paths are pairwise distinct. -/
theorem buildTreeVersion_eq_of_perm (cp : Option String) {files1 files2 : List VcsFile}
    (hp : files1.Perm files2) (hnd : (files1.map VcsFile.path).Nodup) :
    buildTreeVersion cp files1 = buildTreeVersion cp files2 := by
  unfold buildTreeVersion
  have hpf := hp.filter (fun f => decide (cp ≠ some f.path))
  have hsub : ((files1.filter (fun f => decide (cp ≠ some f.path))).map VcsFile.path).Sublist
      (files1.map VcsFile.path) := (List.filter_sublist files1).map VcsFile.path
  have hndf : ((files1.filter (fun f => decide (cp ≠ some f.path))).map VcsFile.path).Nodup :=
    hnd.sublist hsub
  rw [sortByKey_eq_of_perm VcsFile.path hpf hndf]

/-- The file list of a built tree version is sorted ascending by path. -/
theorem buildTreeVersion_files_pairwise (cp : Option String) (files : List VcsFile) :
    (buildTreeVersion cp files).files.Pairwise (fun a b => strLe a b = true) := by
  unfold buildTreeVersion
  exact List.pairwise_map.mpr (sortByKey_pairwise VcsFile.path _)

/-- The unit declaration file never appears in the built file list. -/
theorem buildTreeVersion_not_mem (cp : String) (files : List VcsFile) :
    cp ∉ (buildTreeVersion (some cp) files).files := by
  intro hmem
  unfold buildTreeVersion at hmem
  obtain ⟨f, hf, hfp⟩ := List.mem_map.mp hmem
  have hf2 := (sortByKey_perm VcsFile.path _).mem_iff.mp hf
  have hpred := (List.mem_filter.mp hf2).2
  exact (of_decide_eq_true hpred) (by rw [hfp])

/-- Building a tree version only depends on the scan result with the unit
declaration file filtered away. -/
theorem buildTreeVersion_congr_filter (cp : Option String) {files1 files2 : List VcsFile}
    (h : files1.filter (fun f => decide (cp ≠ some f.path))
      = files2.filter (fun f => decide (cp ≠ some f.path))) :
    buildTreeVersion cp files1 = buildTreeVersion cp files2 := by
  unfold buildTreeVersion
  rw [h]

/-- A freshly stored entry is found again under its key. -/
theorem cacheGet_cacheSet_self (cache : TreeCache) (key : List String) (v : TreeVersion)
    (dp : List String) : cacheGet (cacheSet cache key v dp) key = some v := by
  simp [cacheGet, cacheSet]

/-- Unfolding of getTreeVersion under a forced rescan. -/
theorem getTreeVersion_force_eq (scanner : ScanParams → List VcsFile) (pr : String)
    (cache : TreeCache) (c : VersionResolutionConfig) :
    getTreeVersion scanner pr cache c true =
      ⟨(resolveTreeVersion scanner pr c).1,
       cacheSet cache (getResourceTreeCacheKey c) (resolveTreeVersion scanner pr c).1
         [getSourcePath c],
       (resolveTreeVersion scanner pr c).2⟩ := rfl

/-- Unfolding of getTreeVersion on a cache hit. -/
theorem getTreeVersion_hit (scanner : ScanParams → List VcsFile) (pr : String)
    {cache : TreeCache} {c : VersionResolutionConfig} {v : TreeVersion}
    (h : cacheGet cache (getResourceTreeCacheKey c) = some v) :
    getTreeVersion scanner pr cache c false = ⟨v, cache, []⟩ := by
  unfold getTreeVersion
  rw [Bool.cond_false, h]

/-- Unfolding of getTreeVersion on a cache miss. -/
theorem getTreeVersion_miss (scanner : ScanParams → List VcsFile) (pr : String)
    {cache : TreeCache} {c : VersionResolutionConfig}
    (h : cacheGet cache (getResourceTreeCacheKey c) = none) :
    getTreeVersion scanner pr cache c false =
      ⟨(resolveTreeVersion scanner pr c).1,
       cacheSet cache (getResourceTreeCacheKey c) (resolveTreeVersion scanner pr c).1
         [getSourcePath c],
       (resolveTreeVersion scanner pr c).2⟩ := by
  unfold getTreeVersion
  rw [Bool.cond_false, h]

/-- After any unforced call the cache holds the returned version under the
key of the unit descriptor. -/
theorem getTreeVersion_stores (scanner : ScanParams → List VcsFile) (pr : String)
    (cache : TreeCache) (c : VersionResolutionConfig) :
    cacheGet (getTreeVersion scanner pr cache c false).cache (getResourceTreeCacheKey c)
      = some (getTreeVersion scanner pr cache c false).version := by
  cases h : cacheGet cache (getResourceTreeCacheKey c) with
  | some v => rw [getTreeVersion_hit scanner pr h]; exact h
  | none => rw [getTreeVersion_miss scanner pr h]; exact cacheGet_cacheSet_self _ _ _ _

/-- The resolver makes at most one scanner invocation. -/
theorem resolveTreeVersion_scanCalls_len (scanner : ScanParams → List VcsFile) (pr : String)
    (c : VersionResolutionConfig) : (resolveTreeVersion scanner pr c).2.length ≤ 1 := by
  unfold resolveTreeVersion
  split <;> simp

/-- Any getTreeVersion call makes at most one scanner invocation. -/
theorem getTreeVersion_scanCalls_len (scanner : ScanParams → List VcsFile) (pr : String)
    (cache : TreeCache) (c : VersionResolutionConfig) (force : Bool) :
    (getTreeVersion scanner pr cache c force).scanCalls.length ≤ 1 := by
  cases force with
  | true => rw [getTreeVersion_force_eq]; exact resolveTreeVersion_scanCalls_len scanner pr c
  | false =>
    cases h : cacheGet cache (getResourceTreeCacheKey c) with
    | some v => rw [getTreeVersion_hit scanner pr h]; simp
    | none => rw [getTreeVersion_miss scanner pr h]; exact resolveTreeVersion_scanCalls_len scanner pr c

/-! ## Claims -/

/-- C1: for a fixed configuration, tree version, and dependency-version set
(distinct dependency names), the version composer returns one fixed string —
in particular it is invariant under any reordering of the dependency list,
and the returned string is the fixed tag v- followed by a fixed-length
ten-character hex digest truncation. -/
theorem claim1_composer_deterministic (c : ModuleConfig) (tv : NamedTreeVersion)
    (deps1 deps2 : List NamedModuleVersion) (hp : deps1.Perm deps2)
    (hnd : (deps1.map NamedModuleVersion.name).Nodup) :
    getModuleVersionString c tv deps1 = getModuleVersionString c tv deps2
    ∧ ∃ d : String, getModuleVersionString c tv deps1 = "v-" ++ d
        ∧ d.length = 10 ∧ ∀ ch ∈ d.data, ch ∈ hexChars := by
  refine ⟨?_, hashModuleVersion c tv deps1, rfl, ?_, ?_⟩
  · unfold getModuleVersionString
    rw [hashModuleVersion_deps_perm c tv hp hnd]
  · exact hashStrings_length _
  · exact hashStrings_mem _

/-- Witness for C1 at the module-a fixture inputs. -/
theorem claim1_composer_deterministic_witness :
    getModuleVersionString baseModuleConfig tvA [depB, depC]
      = getModuleVersionString baseModuleConfig tvA [depC, depB]
    ∧ ∃ d : String, getModuleVersionString baseModuleConfig tvA [depB, depC] = "v-" ++ d
        ∧ d.length = 10 ∧ ∀ ch ∈ d.data, ch ∈ hexChars :=
  claim1_composer_deterministic baseModuleConfig tvA [depB, depC] [depC, depB]
    (by decide) (by decide)

/-- C2 counterexample: on a configuration without buildConfig, changing the
service, task and test declaration lists leaves the composed hash unchanged,
where the claim demands that those declarations be version-relevant. The
repository test suite pins this behaviour down (test titled: omits
generally-considered runtime fields). -/
theorem claim2_runtime_fields_counterexample :
    hashModuleVersion { baseModuleConfig with serviceConfigs := serviceConfigsAlt, taskConfigs := taskConfigsAlt, testConfigs := testConfigsAlt } tvFoo []
      = hashModuleVersion baseModuleConfig tvFoo []
    ∧ baseModuleConfig.buildConfig = none
    ∧ serializeJVal serviceConfigsAlt ≠ serializeJVal baseModuleConfig.serviceConfigs := by
  refine ⟨by decide, rfl, by decide⟩

/-- C2 (amended): with an explicit buildConfig the hash depends only on that
projection together with the tree version and dependency versions; the
service, task and test declaration lists never enter the hash, whether or
not buildConfig is declared; and without buildConfig a change to the spec
payload changes the hash (established at the fixture configuration). -/
theorem claim2_build_projection (c1 c2 : ModuleConfig) (bc : JVal) (tv : NamedTreeVersion)
    (deps : List NamedModuleVersion) (h1 : c1.buildConfig = some bc)
    (h2 : c2.buildConfig = some bc) :
    hashModuleVersion c1 tv deps = hashModuleVersion c2 tv deps
    ∧ (∀ (c : ModuleConfig) (s t u : JVal),
        hashModuleVersion { c with serviceConfigs := s, taskConfigs := t, testConfigs := u } tv deps
          = hashModuleVersion c tv deps)
    ∧ hashModuleVersion { baseModuleConfig with spec := specAlt } tvFoo []
        ≠ hashModuleVersion baseModuleConfig tvFoo [] := by
  refine ⟨?_, ?_, by decide⟩
  · unfold hashModuleVersion moduleConfigToHash
    rw [h1, h2]
  · intro c s t u
    rfl

/-- Witness for C2 at the fixture configurations sharing one buildConfig. -/
theorem claim2_build_projection_witness :
    hashModuleVersion cfgWithBuildA tvFoo [] = hashModuleVersion cfgWithBuildB tvFoo [] :=
  (claim2_build_projection cfgWithBuildA cfgWithBuildB buildConfigX tvFoo [] rfl rfl).1

/-- C3: the composed version string is invariant under permuting the
dependency-version list (distinct dependency names) and under permuting the
key insertion order of the configuration payload object (distinct keys). -/
theorem claim3_order_invariance (c : ModuleConfig) (tv : NamedTreeVersion)
    (deps1 deps2 : List NamedModuleVersion) (f1 f2 : List (String × JVal))
    (hp : deps1.Perm deps2) (hnd : (deps1.map NamedModuleVersion.name).Nodup)
    (hf : f1.Perm f2) (hk : (f1.map Prod.fst).Nodup) :
    getModuleVersionString c tv deps1 = getModuleVersionString c tv deps2
    ∧ getModuleVersionString { c with buildConfig := none, spec := .jobj (fieldsOfList f1) } tv deps1
      = getModuleVersionString { c with buildConfig := none, spec := .jobj (fieldsOfList f2) } tv deps1 := by
  constructor
  · unfold getModuleVersionString
    rw [hashModuleVersion_deps_perm c tv hp hnd]
  · have hcanon := canon_jobj_eq_of_perm hf hk
    have key : serializeConfig (moduleConfigToHash
          { c with buildConfig := none, spec := .jobj (fieldsOfList f1) })
        = serializeConfig (moduleConfigToHash
          { c with buildConfig := none, spec := .jobj (fieldsOfList f2) }) := by
      unfold serializeConfig moduleConfigToHash
      dsimp only
      rw [canon_jobj, canon_jobj, canonFields_fieldsOfList, canonFields_fieldsOfList]
      dsimp only [List.map]
      rw [hcanon]
    unfold getModuleVersionString hashModuleVersion
    rw [key]

/-- Witness for C3 at the fixture inputs. -/
theorem claim3_order_invariance_witness :
    getModuleVersionString baseModuleConfig tvA [depB, depC]
      = getModuleVersionString baseModuleConfig tvA [depC, depB]
    ∧ getModuleVersionString { baseModuleConfig with buildConfig := none, spec := .jobj (fieldsOfList objFields1) } tvA [depB, depC]
      = getModuleVersionString { baseModuleConfig with buildConfig := none, spec := .jobj (fieldsOfList objFields2) } tvA [depB, depC] :=
  claim3_order_invariance baseModuleConfig tvA [depB, depC] [depC, depB] objFields1 objFields2
    (by decide) (by decide) (by decide) (by decide)

/-- C4: on the scan path getTreeVersion returns a files sequence sorted
ascending by path, and the whole TreeVersion — contentHash included — is
identical for every permutation of the order the scanner returned the
(path, hash) pairs in, the paths being pairwise distinct. -/
theorem claim4_sorted_and_order_independent (scanner1 scanner2 : ScanParams → List VcsFile)
    (pr : String) (cache1 cache2 : TreeCache) (c : VersionResolutionConfig)
    (hperm : ∀ p, (scanner1 p).Perm (scanner2 p))
    (hnd : ∀ p, ((scanner1 p).map VcsFile.path).Nodup) :
    (getTreeVersion scanner1 pr cache1 c true).version
      = (getTreeVersion scanner2 pr cache2 c true).version
    ∧ (getTreeVersion scanner1 pr cache1 c true).version.files.Pairwise
        (fun a b => strLe a b = true) := by
  rw [getTreeVersion_force_eq, getTreeVersion_force_eq]
  dsimp only
  unfold resolveTreeVersion
  by_cases hinc : c.includeRules = some []
  · simp only [if_pos hinc]
    exact ⟨trivial, List.Pairwise.nil⟩
  · simp only [if_neg hinc]
    exact ⟨buildTreeVersion_eq_of_perm _ (hperm _) (hnd _),
           buildTreeVersion_files_pairwise _ _⟩

/-- Witness for C4 with the two fixture scanners returning the same files in
different orders. -/
theorem claim4_sorted_and_order_independent_witness :
    (getTreeVersion scannerFixture "/p" [] cfgModA true).version
      = (getTreeVersion scannerFixturePermuted "/p" [] cfgModA true).version
    ∧ (getTreeVersion scannerFixture "/p" [] cfgModA true).version.files.Pairwise
        (fun a b => strLe a b = true) :=
  claim4_sorted_and_order_independent scannerFixture scannerFixturePermuted "/p" [] [] cfgModA
    (fun p => by simp only [scannerFixture, scannerFixturePermuted]; decide)
    (fun p => by simp only [scannerFixture]; decide)

/-- C5: a live cache entry short-circuits getTreeVersion — the cached value
is returned unchanged, no scanner invocation is made and the cache is left
as is; moreover two unforced calls in sequence return identical versions,
the second call scans nothing, and each call scans at most once (the first
call stores its result under the key). -/
theorem claim5_cache_hit_short_circuit (scanner : ScanParams → List VcsFile) (pr : String)
    (cache : TreeCache) (c : VersionResolutionConfig) (v : TreeVersion)
    (hhit : cacheGet cache (getResourceTreeCacheKey c) = some v) :
    getTreeVersion scanner pr cache c false = ⟨v, cache, []⟩
    ∧ ∀ cache2 : TreeCache,
        (getTreeVersion scanner pr (getTreeVersion scanner pr cache2 c false).cache c false).version
          = (getTreeVersion scanner pr cache2 c false).version
        ∧ (getTreeVersion scanner pr (getTreeVersion scanner pr cache2 c false).cache c false).scanCalls = []
        ∧ (getTreeVersion scanner pr cache2 c false).scanCalls.length ≤ 1 := by
  refine ⟨getTreeVersion_hit scanner pr hhit, ?_⟩
  intro cache2
  have hstore := getTreeVersion_stores scanner pr cache2 c
  rw [getTreeVersion_hit scanner pr hstore]
  exact ⟨rfl, rfl, getTreeVersion_scanCalls_len scanner pr cache2 c false⟩

/-- Witness for C5 with a pre-populated cache fixture. -/
theorem claim5_cache_hit_short_circuit_witness :
    getTreeVersion scannerFixture "/p" cacheFixture cfgModA false = ⟨tvCached, cacheFixture, []⟩
    ∧ ∀ cache2 : TreeCache,
        (getTreeVersion scannerFixture "/p" (getTreeVersion scannerFixture "/p" cache2 cfgModA false).cache cfgModA false).version
          = (getTreeVersion scannerFixture "/p" cache2 cfgModA false).version
        ∧ (getTreeVersion scannerFixture "/p" (getTreeVersion scannerFixture "/p" cache2 cfgModA false).cache cfgModA false).scanCalls = []
        ∧ (getTreeVersion scannerFixture "/p" cache2 cfgModA false).scanCalls.length ≤ 1 :=
  claim5_cache_hit_short_circuit scannerFixture "/p" cacheFixture cfgModA tvCached rfl

/-- C6: a unit declaring an explicitly empty include set never has the
scanner invoked for it, and its resolved tree version carries an empty file
list; the model is total, so no error is raised. -/
theorem claim6_empty_include (scanner : ScanParams → List VcsFile) (pr : String)
    (cache : TreeCache) (c : VersionResolutionConfig) (force : Bool)
    (h : c.includeRules = some []) :
    (getTreeVersion scanner pr cache c force).scanCalls = []
    ∧ (getTreeVersion scanner pr cache c true).version.files = [] := by
  constructor
  · cases force with
    | true =>
      rw [getTreeVersion_force_eq]
      dsimp only
      simp [resolveTreeVersion, h]
    | false =>
      cases hg : cacheGet cache (getResourceTreeCacheKey c) with
      | some v => rw [getTreeVersion_hit scanner pr hg]
      | none =>
        rw [getTreeVersion_miss scanner pr hg]
        dsimp only
        simp [resolveTreeVersion, h]
  · rw [getTreeVersion_force_eq]
    dsimp only
    simp [resolveTreeVersion, h]

/-- Witness for C6 at a descriptor declaring include nothing. -/
theorem claim6_empty_include_witness :
    (getTreeVersion scannerFixture "/p" [] cfgEmptyInclude false).scanCalls = []
    ∧ (getTreeVersion scannerFixture "/p" [] cfgEmptyInclude true).version.files = [] :=
  claim6_empty_include scannerFixture "/p" [] cfgEmptyInclude false rfl

/-- C7: on the scan path the scanner receives exactly the fixed project-wide
default excludes when the effective scan root equals the project root and no
include rule is declared; in every other case it receives exactly the unit
declared exclude rules, with no implicit additions; and with an include
configuration other than the empty set the scanner runs exactly once. -/
theorem claim7_default_excludes (scanner : ScanParams → List VcsFile) (pr : String)
    (cache : TreeCache) (c : VersionResolutionConfig) (p : ScanParams)
    (hmem : p ∈ (getTreeVersion scanner pr cache c true).scanCalls) :
    (getSourcePath c = pr ∧ c.includeRules = none → p.excludeRules = some fixedProjectExcludes)
    ∧ (¬(getSourcePath c = pr ∧ c.includeRules = none) → p.excludeRules = c.excludeRules)
    ∧ (c.includeRules ≠ some [] →
        (getTreeVersion scanner pr cache c true).scanCalls.length = 1) := by
  rw [getTreeVersion_force_eq] at hmem ⊢
  dsimp only at hmem ⊢
  unfold resolveTreeVersion at hmem ⊢
  by_cases hinc : c.includeRules = some []
  · simp only [if_pos hinc] at hmem
    exact absurd hmem (List.not_mem_nil p)
  · simp only [if_neg hinc] at hmem ⊢
    have hp : p = scanParamsFor pr c := List.mem_singleton.mp hmem
    subst hp
    unfold scanParamsFor
    refine ⟨?_, ?_, fun _ => rfl⟩
    · intro hcond
      have hb : usesProjectExcludes pr c = true := by
        unfold usesProjectExcludes
        simp [hcond.1, hcond.2]
      simp [hb]
    · intro hcond
      have hb : usesProjectExcludes pr c = false := by
        unfold usesProjectExcludes
        rcases not_and_or.mp hcond with h | h <;> simp [h]
      simp [hb]

/-- Witness for C7 at a descriptor whose root equals the project root with
no include rule. -/
theorem claim7_default_excludes_witness :
    (getSourcePath cfgAtRoot = "/p/module-a" ∧ cfgAtRoot.includeRules = none →
      (scanParamsFor "/p/module-a" cfgAtRoot).excludeRules = some fixedProjectExcludes)
    ∧ (¬(getSourcePath cfgAtRoot = "/p/module-a" ∧ cfgAtRoot.includeRules = none) →
      (scanParamsFor "/p/module-a" cfgAtRoot).excludeRules = cfgAtRoot.excludeRules)
    ∧ (cfgAtRoot.includeRules ≠ some [] →
        (getTreeVersion scannerFixture "/p/module-a" [] cfgAtRoot true).scanCalls.length = 1) :=
  claim7_default_excludes scannerFixture "/p/module-a" [] cfgAtRoot
    (scanParamsFor "/p/module-a" cfgAtRoot) (by decide)

/-- C8: the unit declaration file is excluded from the resolved file list
even when it lies inside the scanned root, and the resolved TreeVersion is
unchanged between any two scans that differ only in entries carrying the
declaration file path. -/
theorem claim8_config_file_excluded (scanner1 scanner2 : ScanParams → List VcsFile)
    (pr : String) (cache1 cache2 : TreeCache) (c : VersionResolutionConfig) (cp : String)
    (hcp : c.configFilePath = some cp)
    (hagree : ∀ p : ScanParams, (scanner1 p).filter (fun f => decide (some cp ≠ some f.path))
        = (scanner2 p).filter (fun f => decide (some cp ≠ some f.path))) :
    (getTreeVersion scanner1 pr cache1 c true).version
      = (getTreeVersion scanner2 pr cache2 c true).version
    ∧ cp ∉ (getTreeVersion scanner1 pr cache1 c true).version.files := by
  rw [getTreeVersion_force_eq, getTreeVersion_force_eq]
  dsimp only
  unfold resolveTreeVersion
  by_cases hinc : c.includeRules = some []
  · simp only [if_pos hinc]
    exact ⟨trivial, List.not_mem_nil cp⟩
  · simp only [if_neg hinc]
    rw [hcp]
    exact ⟨buildTreeVersion_congr_filter _ (hagree _), buildTreeVersion_not_mem cp _⟩

/-- Witness for C8 with fixture scanners differing only in the hash stored
for the declaration file of module-a. -/
theorem claim8_config_file_excluded_witness :
    (getTreeVersion scannerFixture "/p" [] cfgModA true).version
      = (getTreeVersion scannerFixtureCfgEdited "/p" [] cfgModA true).version
    ∧ "/p/module-a/garden.yml" ∉ (getTreeVersion scannerFixture "/p" [] cfgModA true).version.files :=
  claim8_config_file_excluded scannerFixture scannerFixtureCfgEdited "/p" [] [] cfgModA
    "/p/module-a/garden.yml" rfl
    (fun p => by simp only [scannerFixture, scannerFixtureCfgEdited]; decide)

/-- C9: isSubPath errors whenever either argument is not an absolute path;
on absolute arguments it decides whole-segment containment: true on the
path itself, with or without a trailing separator, and on nested paths;
false when parent and candidate are swapped and false on a mere
string-prefix match such as /volume/dir against /volume/dir-2. -/
theorem claim9_isSubPath :
    (∀ p q : String, isAbsolutePath p = false ∨ isAbsolutePath q = false →
        isSubPath p q = Except.error subPathErrorMsg)
    ∧ isSubPath "/volume/dir" "/volume/dir" = .ok true
    ∧ isSubPath "/volume/dir" "/volume/dir/" = .ok true
    ∧ isSubPath "/volume/dir" "/volume/dir/sub" = .ok true
    ∧ isSubPath "/volume/dir/sub" "/volume/dir" = .ok false
    ∧ isSubPath "/volume/dir" "/volume/dir-2" = .ok false
    ∧ listLeads "/volume/dir".data "/volume/dir-2".data = true
    ∧ isSubPath "dir" "/dir" = Except.error subPathErrorMsg
    ∧ isSubPath "/dir" "dir" = Except.error subPathErrorMsg := by
  refine ⟨?_, rfl, rfl, rfl, rfl, rfl, by decide, rfl, rfl⟩
  intro p q h
  unfold isSubPath
  rcases h with h | h <;> simp [h]

/-- Witness for C9: the error case applied at a non-absolute first
argument. -/
theorem claim9_isSubPath_witness :
    isSubPath "dir" "/dir" = Except.error subPathErrorMsg :=
  claim9_isSubPath.1 "dir" "/dir" (Or.inl (by decide))

/-- C10: renaming a file inside the scanned tree (same content hash, new
path) changes the built TreeVersion — its file list in every such case, and
its contentHash at the rename fixture — while renaming the enclosing
directory of a non-included sibling leaves the scan selection and hence the
TreeVersion untouched, shown at the sibling fixture. -/
theorem claim10_rename_sensitivity (cp : Option String) (pre post : List VcsFile)
    (p1 p2 hsh : String) (hne : p1 ≠ p2) (hcp : cp ≠ some p1)
    (hnotin : p1 ∉ (pre ++ post).map VcsFile.path) :
    (buildTreeVersion cp (pre ++ ⟨p1, hsh⟩ :: post)).files
      ≠ (buildTreeVersion cp (pre ++ ⟨p2, hsh⟩ :: post)).files
    ∧ (buildTreeVersion none renameBefore).contentHash
      ≠ (buildTreeVersion none renameAfter).contentHash
    ∧ listUnder "/p/build-a" siblingBefore = listUnder "/p/build-a" siblingAfter
    ∧ buildTreeVersion none (listUnder "/p/build-a" siblingBefore)
      = buildTreeVersion none (listUnder "/p/build-a" siblingAfter) := by
  rw [List.map_append] at hnotin
  refine ⟨?_, by decide, by decide, by decide⟩
  intro he
  have hmem1 : p1 ∈ (buildTreeVersion cp (pre ++ ⟨p1, hsh⟩ :: post)).files := by
    unfold buildTreeVersion
    have hin : (⟨p1, hsh⟩ : VcsFile) ∈ pre ++ ⟨p1, hsh⟩ :: post :=
      List.mem_append_right pre (List.mem_cons_self _ _)
    have hkeep : (⟨p1, hsh⟩ : VcsFile) ∈ (pre ++ ⟨p1, hsh⟩ :: post).filter
        (fun f => decide (cp ≠ some f.path)) :=
      List.mem_filter.mpr ⟨hin, decide_eq_true hcp⟩
    exact List.mem_map_of_mem VcsFile.path
      ((sortByKey_perm VcsFile.path _).mem_iff.mpr hkeep)
  have hmem2 : p1 ∉ (buildTreeVersion cp (pre ++ ⟨p2, hsh⟩ :: post)).files := by
    intro hmem
    unfold buildTreeVersion at hmem
    obtain ⟨f, hf, hfp⟩ := List.mem_map.mp hmem
    have hf2 := (sortByKey_perm VcsFile.path _).mem_iff.mp hf
    have hfin := (List.mem_filter.mp hf2).1
    rcases List.mem_append.mp hfin with hfin | hfin
    · exact hnotin (List.mem_append_left _ (hfp ▸ List.mem_map_of_mem VcsFile.path hfin))
    · rcases List.mem_cons.mp hfin with rfl | hfin
      · exact hne hfp.symm
      · exact hnotin (List.mem_append_right _ (hfp ▸ List.mem_map_of_mem VcsFile.path hfin))
  exact hmem2 (he ▸ hmem1)

/-- Witness for C10: a one-file tree with the file renamed from a to b. -/
theorem claim10_rename_sensitivity_witness :
    (buildTreeVersion none ([] ++ (⟨"a", "h"⟩ : VcsFile) :: [])).files
      ≠ (buildTreeVersion none ([] ++ (⟨"b", "h"⟩ : VcsFile) :: [])).files
    ∧ (buildTreeVersion none renameBefore).contentHash
      ≠ (buildTreeVersion none renameAfter).contentHash
    ∧ listUnder "/p/build-a" siblingBefore = listUnder "/p/build-a" siblingAfter
    ∧ buildTreeVersion none (listUnder "/p/build-a" siblingBefore)
      = buildTreeVersion none (listUnder "/p/build-a" siblingAfter) :=
  claim10_rename_sensitivity none [] [] "a" "b" "h" (by decide) (by decide) (by decide)

end Garden
